import Mathlib

set_option maxHeartbeats 1000000

/- Shallow embedding of the m,n,k game engine (src/games/mnk_game.py) and of
   the state-dataset explorer and query layer (src/state_dataset/dataset.py).

   Conventions of the embedding:
   * numpy boards are row-major flattened lists of Int; the cell values are
     -1 (empty), 0 (player 0 / X), 1 (player 1 / O), exactly as in the source;
   * Python `//` and `%` on an int with a positive divisor are Int.ediv and
     Int.emod (floor division, nonnegative remainder);
   * numpy integer indexing accepts indices in [-size, size), wrapping the
     negative ones; out of that range it raises IndexError;
   * `random` draws are modelled by an explicit oracle argument, a function
     from Nat to Nat supplying one number per internal draw;
   * Python exceptions are modelled with Except; a function that cannot raise
     is embedded as a total function. -/

/-- Configuration dict `rules` consumed by MNKGame and MNKGameState: the keys
read by the source are opening_moves, misere, allowed_directions,
p0_extra_k and p1_extra_k, each with the default used at its `get` site. -/
structure MNKRules where
  openingMoves : List (Nat × Int) := []
  misere : Bool := false
  allowedDirections : List (Int × List String) := []
  p0ExtraK : Int := 0
  p1ExtraK : Int := 0
deriving DecidableEq

/-- Game definition MNKGame: board dimensions m (rows) and n (cols), base win
length k and the rules dict. -/
structure MNKGame where
  m : Nat
  n : Nat
  baseK : Int
  rules : MNKRules
deriving DecidableEq

/-- MNKGame.get_win_length: base k plus the per-player extra
(rules dict key p0_extra_k or p1_extra_k, default 0). -/
def MNKGame.get_win_length (g : MNKGame) (p : Int) : Int :=
  g.baseK + (if p = 0 then g.rules.p0ExtraK else if p = 1 then g.rules.p1ExtraK else 0)

/-- The direction-key mapping used by MNKGame.get_valid_directions; a key
outside the mapping is dropped from the allowed set. -/
def dirMapping : String → Option (Int × Int)
  | "h" => some (0, 1)
  | "v" => some (1, 0)
  | "d1" => some (1, 1)
  | "d2" => some (1, -1)
  | _ => none

/-- MNKGame.get_valid_directions: the per-player direction keys (default all
four) filtered through the mapping. -/
def MNKGame.get_valid_directions (g : MNKGame) (p : Int) : List (Int × Int) :=
  let keys := (g.rules.allowedDirections.lookup p).getD ["h", "v", "d1", "d2"]
  keys.filterMap dirMapping

/-- The MNKGame constructor validation: computes both win lengths and raises
ValueError when the grid is too small in both axes. -/
def mkMNKGame (m n : Nat) (k : Int) (rules : MNKRules) : Except String MNKGame :=
  let g : MNKGame := { m := m, n := n, baseK := k, rules := rules }
  let k0 := g.get_win_length 0
  let k1 := g.get_win_length 1
  let maxKNeeded := max k0 k1
  if (min m n : Int) < maxKNeeded then
    if (max m n : Int) < maxKNeeded then .error "Grid size too small for K"
    else .ok g
  else .ok g

/-- Game state MNKGameState: the fields set in the source constructor, with
the board flattened row-major. -/
structure MNKGameState where
  game : MNKGame
  rows : Nat
  cols : Nat
  rules : MNKRules
  board : List Int
  currentPlayer : Nat
  gameOver : Bool
  returns : Int × Int
  moveCount : Nat
  movesRemainingInTurn : Int
deriving DecidableEq

/-- MNKGameState._get_opening_moves: the opening allotment while
move_count is at most 1, otherwise 1. -/
def getOpeningMoves (rules : MNKRules) (moveCount : Nat) (p : Nat) : Int :=
  if moveCount ≤ 1 then (rules.openingMoves.lookup p).getD 1 else 1

/-- MNKGame.new_initial_state: empty board, player 0 to move, opening
countdown taken from the rules. -/
def MNKGame.new_initial_state (g : MNKGame) : MNKGameState :=
  { game := g
    rows := g.m
    cols := g.n
    rules := g.rules
    board := List.replicate (g.m * g.n) (-1)
    currentPlayer := 0
    gameOver := false
    returns := (0, 0)
    moveCount := 0
    movesRemainingInTurn := getOpeningMoves g.rules 0 0 }

/-- Reading the flattened board at row r, column c (in-bounds access). -/
def boardGet (board : List Int) (cols r c : Nat) : Int :=
  board.getD (r * cols + c) (-1)

/-- MNKGameState.legal_actions: the indices of empty cells of the flattened
board, or the empty list on a terminal state. -/
def MNKGameState.legal_actions (s : MNKGameState) : List Nat :=
  if s.gameOver then []
  else (List.range s.board.length).filter (fun i => s.board.getD i 0 == -1)

/-- MNKGameState._check_line: walks k steps from (r, c) in direction
(dr, dc); any out-of-bounds or differently-owned cell aborts the line.
Python range(k) is empty when k is not positive. -/
def check_line (board : List Int) (rows cols : Nat) (r c : Nat) (dr dc : Int)
    (player : Nat) (k : Int) : Bool :=
  (List.range k.toNat).all fun i =>
    let rr : Int := (r : Int) + i * dr
    let cc : Int := (c : Int) + i * dc
    decide (0 ≤ rr) && decide (rr < (rows : Int)) && decide (0 ≤ cc) &&
      decide (cc < (cols : Int)) && (boardGet board cols rr.toNat cc.toNat == (player : Int))

/-- The cell-and-direction scan of MNKGameState._check_outcome: whether some
cell owned by the player starts a full line in one of that player's valid
directions. -/
def MNKGameState.findWin (s : MNKGameState) (player : Nat) : Bool :=
  let targetK := s.game.get_win_length player
  let validDirs := s.game.get_valid_directions player
  (List.range s.rows).any fun r =>
    (List.range s.cols).any fun c =>
      (boardGet s.board s.cols r c == (player : Int)) &&
        validDirs.any fun d => check_line s.board s.rows s.cols r c d.1 d.2 player targetK

/-- MNKGameState._check_outcome: some 1 for a win, some -1 under misere,
none when the player has no full line. -/
def MNKGameState.check_outcome (s : MNKGameState) (player : Nat) : Option Int :=
  if s.findWin player then some (if s.rules.misere then -1 else 1) else none

/-- Writing the two entries of the returns list, index cp getting a and
index 1 - cp getting b; the source only ever passes cp 0 or 1. -/
def setReturns (cp : Nat) (a b : Int) : Int × Int :=
  if cp = 0 then (a, b) else (b, a)

/-- The outcome block of MNKGameState.apply_action: on a win the state
becomes terminal with returns from the outcome sign (if outcome is 1 the
mover gets 1.0 and the other player -1.0, if -1 the inverse); with no win,
a full board becomes a terminal draw with returns [0, 0]; otherwise the
state is unchanged. -/
def MNKGameState.resolveOutcome (s1 : MNKGameState) (mover : Nat) : MNKGameState :=
  match s1.check_outcome mover with
  | some o =>
      { s1 with gameOver := true,
                returns := if o = 1 then setReturns mover 1 (-1)
                           else if o = -1 then setReturns mover (-1) 1
                           else s1.returns }
  | none =>
      if s1.board.all (fun v => v != -1) then
        { s1 with gameOver := true, returns := (0, 0) }
      else s1

/-- The turn-advance block of MNKGameState.apply_action: when the state is
still live and the opening countdown is spent, the other player becomes
current and the countdown is reset from the (already incremented) move
count. -/
def MNKGameState.advanceTurn (s2 : MNKGameState) (mover : Nat) : MNKGameState :=
  if s2.gameOver = false ∧ s2.movesRemainingInTurn ≤ 0 then
    { s2 with currentPlayer := 1 - mover,
              movesRemainingInTurn := getOpeningMoves s2.rules s2.moveCount (1 - mover) }
  else s2

/-- The body of MNKGameState.apply_action after index resolution: mark the
cell at resolved row er and column ec, bump the counters, resolve the
outcome (win check first, then draw check), then advance the turn. -/
def MNKGameState.applyStep (s : MNKGameState) (er ec : Nat) : MNKGameState :=
  let s1 : MNKGameState :=
    { s with board := s.board.set (er * s.cols + ec) (s.currentPlayer : Int),
             moveCount := s.moveCount + 1,
             movesRemainingInTurn := s.movesRemainingInTurn - 1 }
  (s1.resolveOutcome s.currentPlayer).advanceTurn s.currentPlayer

/-- The exceptions MNKGameState.apply_action can raise: the explicit
RuntimeError on a terminal state, numpy IndexError on a row index outside
[-rows, rows), and ZeroDivisionError from action // cols on a zero-column
board. -/
inductive TransitionError
  | terminal
  | indexError
  | zeroDivision
deriving DecidableEq

/-- MNKGameState.apply_action: raises on a terminal state; resolves
row = action // cols and col = action % cols with Python floor semantics;
numpy accepts row in [-rows, rows) (negative rows wrap around) and raises
IndexError otherwise, before any field is mutated. -/
def MNKGameState.apply_action (s : MNKGameState) (action : Int) : Except TransitionError MNKGameState :=
  if s.gameOver then .error .terminal
  else if s.cols = 0 then .error .zeroDivision
  else
    let row := action.ediv s.cols
    let col := action.emod s.cols
    if row < -(s.rows : Int) ∨ (s.rows : Int) ≤ row then .error .indexError
    else
      let er := (if row < 0 then row + s.rows else row).toNat
      let ec := (if col < 0 then col + s.cols else col).toNat
      .ok (s.applyStep er ec)

/-- MNKGameState.__str__, the canonical deduplication key of the explorer:
the board rendered row by row with characters . X O, rows joined by
newlines. Only the board contents enter the rendering. -/
def MNKGameState.to_string (s : MNKGameState) : String :=
  String.intercalate "\n" <| (List.range s.rows).map fun r =>
    String.join <| (List.range s.cols).map fun c =>
      let v := boardGet s.board s.cols r c
      if v = -1 then "." else if v = 0 then "X" else if v = 1 then "O" else "?"

/-- MNKGameState.current_player: the pyspiel TERMINAL id (-4) once the game
is over, the live player otherwise. -/
def MNKGameState.currentPlayerId (s : MNKGameState) : Int :=
  if s.gameOver then -4 else (s.currentPlayer : Int)

/-- MNKGameState.observation_tensor: three stacked planes, player 0 stones,
player 1 stones, and an all-zero plane, flattened. The player_id argument
of the source is ignored by its body. -/
def MNKGameState.observation_tensor (s : MNKGameState) : List Int :=
  (s.board.map fun p => if p = 0 then 1 else 0) ++
    (s.board.map fun p => if p = 1 then 1 else 0) ++
    (s.board.map fun _ => 0)

/-- extract_board of dataset.py: reshape the observation tensor into planes
and subtract plane 1 from plane 0, giving 1 on plane-0 stones, -1 on
plane-1 stones, 0 elsewhere. -/
def extractBoard (s : MNKGameState) : List Int :=
  let obs := s.observation_tensor
  let sz := s.rows * s.cols
  List.zipWith (· - ·) (obs.take sz) ((obs.drop sz).take sz)

/-- The while-loop of longest_chain: counts further same-valued cells from
(rr, cc) stepping by (dr, dc), stopping at the board edge or at a cell of a
different value. The fuel argument only bounds the walk; every direction
the source can supply moves strictly through the grid, so any fuel of at
least rows + cols + 1 is never exhausted. -/
def walkChain (board : List Int) (rows cols : Nat) (pv : Int) (dr dc : Int) :
    Nat → Int → Int → Nat
  | 0, _, _ => 0
  | fuel + 1, rr, cc =>
    if 0 ≤ rr ∧ rr < (rows : Int) ∧ 0 ≤ cc ∧ cc < (cols : Int) ∧
        boardGet board cols rr.toNat cc.toNat = pv then
      1 + walkChain board rows cols pv dr dc fuel (rr + dr) (cc + dc)
    else 0

/-- longest_chain of dataset.py: over the relative board of extract_board,
the maximum over cells holding player_val and over the directions of the
target player id (the current player for player_val 1, its complement
otherwise) of one plus the onward walk. -/
def longest_chain (s : MNKGameState) (playerVal : Int) : Nat :=
  let board := extractBoard s
  let rows := s.rows
  let cols := s.cols
  let currentPId := s.currentPlayerId
  let targetPId : Int := if playerVal == 1 then currentPId else 1 - currentPId
  let directions := s.game.get_valid_directions targetPId
  (List.range rows).foldl (fun best r =>
    (List.range cols).foldl (fun best c =>
      if boardGet board cols r c == playerVal then
        directions.foldl (fun best d =>
          max best (1 + walkChain board rows cols playerVal d.1 d.2
            (rows * cols + 1) ((r : Int) + d.1) ((c : Int) + d.2))) best
      else best) best) 0

/-- The info dict appended for each newly visited state by
generate_all_states. -/
structure Record where
  state : MNKGameState
  longestChainMe : Nat
  longestChainOpp : Nat
  freespace : Nat
  winning : Bool
  tied : Bool
  losing : Bool
  currentPlayer : Int
  numTurns : Nat
deriving DecidableEq

/-- Building the info dict of generate_all_states for a state about to be
recorded; the stored state is the clone of the live frontier state. -/
def mkInfo (s : MNKGameState) (numTurns : Nat) : Record :=
  let lenChainMe := longest_chain s 1
  let lenChainOpp := longest_chain s (-1)
  { state := s
    longestChainMe := lenChainMe
    longestChainOpp := lenChainOpp
    freespace := s.legal_actions.length
    winning := lenChainMe > lenChainOpp
    tied := lenChainMe == lenChainOpp
    losing := lenChainMe < lenChainOpp
    currentPlayer := s.currentPlayerId
    numTurns := numTurns }

/-- A failure aborting an enumeration: a transition exception propagating
out of the child loop, or exhaustion of the explicit recursion fuel the
embedding adds (the Python recursion carries no fuel; the termination
theorem shows fuel rows * cols + 1 is never exhausted from an initial
state). -/
inductive GenError
  | fuelExhausted
  | transition (e : TransitionError)
deriving DecidableEq

/-- The visited-key list and dataset record list threaded through an
enumeration; Python mutates a visited dict and the dataset in place. -/
abbrev GenAcc := List String × List Record

/-- The for-loop of generate_all_states: clone and apply each action in
turn, feeding the recursive call through the step function; an exception
from apply_action propagates. -/
def expandChildren (step : MNKGameState → GenAcc → Except GenError GenAcc)
    (s : MNKGameState) : List Nat → GenAcc → Except GenError GenAcc
  | [], acc => .ok acc
  | a :: rest, acc =>
    match s.apply_action a with
    | .error e => .error (.transition e)
    | .ok child =>
      match step child acc with
      | .error e => .error e
      | .ok acc1 => expandChildren step s rest acc1

/-- generate_all_states: stop at an already-visited key or a terminal state,
stop above max_depth, otherwise record the state (visited key and dataset
entry) and recurse over every legal action. -/
def generate_all_states : Nat → MNKGameState → GenAcc → Nat → Option Nat →
    Except GenError GenAcc
  | 0, _, _, _, _ => .error .fuelExhausted
  | fuel + 1, s, acc, numTurns, maxDepth =>
    if s.to_string ∈ acc.1 ∨ s.gameOver = true then .ok acc
    else if (match maxDepth with | some d => decide (d < numTurns) | none => false) = true then .ok acc
    else
      expandChildren (fun c acc1 => generate_all_states fuel c acc1 (numTurns + 1) maxDepth)
        s s.legal_actions (acc.1 ++ [s.to_string], acc.2 ++ [mkInfo s numTurns])

/-- The query view over dataset records: a wrapped list of items. -/
structure GameStateView (α : Type) where
  items : List α
deriving DecidableEq

/-- The Python values stored in the fields of an info dict, as compared by
GameStateView.filter; none is Python None, the dict.get result for a
missing key. -/
inductive PyVal
  | none
  | vBool (b : Bool)
  | vInt (n : Int)
  | vState (s : MNKGameState)
deriving DecidableEq

/-- Field access x.get(key) on an info dict: every record of this program
carries exactly the nine keys written by generate_all_states, and get
yields None on any other key. -/
def Record.get (r : Record) (k : String) : PyVal :=
  if k = "state" then .vState r.state
  else if k = "longest_chain_me" then .vInt r.longestChainMe
  else if k = "longest_chain_opp" then .vInt r.longestChainOpp
  else if k = "freespace" then .vInt r.freespace
  else if k = "winning" then .vBool r.winning
  else if k = "tied" then .vBool r.tied
  else if k = "losing" then .vBool r.losing
  else if k = "current_player" then .vInt r.currentPlayer
  else if k = "num_turns" then .vInt r.numTurns
  else .none

/-- GameStateView.filter(**kwargs): keep the records whose every named
field compares equal to the given value; the per-record try/except never
fires because dict.get and the comparison cannot raise. -/
def GameStateView.filterKw (v : GameStateView Record) (kwargs : List (String × PyVal)) :
    GameStateView Record :=
  ⟨v.items.filter fun x => kwargs.all fun kv => x.get kv.1 == kv.2⟩

/-- GameStateView.where: the list comprehension evaluates the predicate on
each item in order with no exception handling, so a predicate fault
propagates; the predicate is embedded as a fallible Bool computation. -/
def GameStateView.whereP {α ε : Type} (v : GameStateView α) (fn : α → Except ε Bool) :
    Except ε (GameStateView α) :=
  (go v.items).map GameStateView.mk
where
  go : List α → Except ε (List α)
    | [] => .ok []
    | x :: xs =>
      match fn x with
      | .error e => .error e
      | .ok b =>
        match go xs with
        | .error e => .error e
        | .ok rest => .ok (if b then x :: rest else rest)

/-- The draw loop of random.sample modelled with an index oracle: n times,
pick the element at the oracle index modulo the current size and remove
it. -/
def drawWithout {α : Type} (σ : Nat → Nat) : Nat → List α → List α
  | 0, _ => []
  | _ + 1, [] => []
  | n + 1, x :: xs =>
    let l := x :: xs
    let i := σ n % l.length
    l.getD i x :: drawWithout σ n (l.eraseIdx i)

/-- random.sample(population, n): ValueError when n exceeds the population
size, otherwise n distinct draws. -/
def randomSample {α : Type} (σ : Nat → Nat) (l : List α) (n : Nat) : Except String (List α) :=
  if l.length < n then .error "Sample larger than population or is negative"
  else .ok (drawWithout σ n l)

/-- random.choices(population, k): IndexError on an empty population,
otherwise k independent oracle draws with replacement. -/
def randomChoices {α : Type} (σ : Nat → Nat) (l : List α) (k : Nat) : Except String (List α) :=
  match l with
  | [] => .error "Cannot choose from an empty sequence"
  | x :: xs =>
    .ok ((List.range k).map fun j => (x :: xs).getD (σ j % (x :: xs).length) x)

/-- GameStateView.sample: empty view returns [] with a warning; a
without-replacement request above the view size warns and draws all items;
otherwise the guarded draw runs inside try/except, any draw failure
degrading to []. The warnings are print calls, not modelled. -/
def GameStateView.sample {α : Type} (v : GameStateView α) (σ : Nat → Nat)
    (k : Nat) (replace : Bool) : Except String (List α) :=
  if v.items.isEmpty then .ok []
  else if replace = false ∧ v.items.length < k then
    randomSample σ v.items v.items.length
  else
    .ok (match (if replace then randomChoices σ v.items k else randomSample σ v.items k) with
         | .error _ => []
         | .ok r => r)

deriving instance DecidableEq for Except

/-- Number of empty cells of a state's board, the measure that shrinks at
every transition. -/
def emptyCount (s : MNKGameState) : Nat :=
  s.board.countP (fun v => v == -1)

/-- Shape coherence every state produced by the source constructor enjoys:
the flattened board has exactly rows * cols cells. -/
def WFState (s : MNKGameState) : Prop :=
  s.board.length = s.rows * s.cols

/-- States reachable from a game's initial state by legal transitions. -/
inductive ReachableFrom (g : MNKGame) : MNKGameState → Prop
  | init : ReachableFrom g g.new_initial_state
  | step {s c : MNKGameState} {a : Nat} : ReachableFrom g s → a ∈ s.legal_actions →
      s.apply_action a = .ok c → ReachableFrom g c

/-- Specification-side reading of the win check of section 4.1: some cell
owned by the player starts, in one of that player's allowed directions, a
fully in-bounds run of the player's win length of its own stones. -/
def HasQualifyingLine (g : MNKGame) (rows cols : Nat) (board : List Int) (p : Nat) : Prop :=
  ∃ r, r < rows ∧ ∃ c, c < cols ∧ boardGet board cols r c = (p : Int) ∧
    ∃ d ∈ g.get_valid_directions p,
      ∀ i < (g.get_win_length p).toNat,
        0 ≤ (r : Int) + i * d.1 ∧ (r : Int) + i * d.1 < rows ∧
          0 ≤ (c : Int) + i * d.2 ∧ (c : Int) + i * d.2 < cols ∧
          boardGet board cols ((r : Int) + i * d.1).toNat ((c : Int) + i * d.2).toNat = (p : Int)

/-- Specification-side reading of the longest-chain feature for a player id:
the maximum, over the cells the player owns on the board and over that
player's allowed directions, of the count of consecutive same-owner cells
starting at that cell walking in that direction. Stated for comparison
with longest_chain, which the source computes on the relative board of
extract_board. -/
def specLongestChain (s : MNKGameState) (p : Nat) : Nat :=
  let dirs := s.game.get_valid_directions p
  (List.range s.rows).foldl (fun best r =>
    (List.range s.cols).foldl (fun best c =>
      if boardGet s.board s.cols r c == (p : Int) then
        dirs.foldl (fun best d =>
          max best (1 + walkChain s.board s.rows s.cols p d.1 d.2
            (s.rows * s.cols + 1) ((r : Int) + d.1) ((c : Int) + d.2))) best
      else best) best) 0

/-- Invariant of an enumeration accumulator: every record snapshots a
non-terminal state, the record keys are pairwise distinct, and every record
key is in the visited set. -/
def GenInv (acc : GenAcc) : Prop :=
  (∀ r ∈ acc.2, r.state.gameOver = false) ∧
    (acc.2.map fun r => r.state.to_string).Nodup ∧
    (∀ r ∈ acc.2, r.state.to_string ∈ acc.1)

/-- A 1 by 1 game with win length 1: the smallest concrete game instance. -/
def g11 : MNKGame := { m := 1, n := 1, baseK := 1, rules := {} }

/-- Standard 3 by 3 tic-tac-toe with win length 3 and default rules. -/
def g33 : MNKGame := { m := 3, n := 3, baseK := 3, rules := {} }

/-- The terminal state reached by playing the single cell of the 1 by 1
game. -/
def c1terminal : MNKGameState :=
  (g11.new_initial_state.apply_action 0).toOption.getD g11.new_initial_state

/-- A 3 by 3 position reached by playing cells 0, 3 and 1 from the initial
state: X holds cells 0 and 1, O holds cell 3, and O is the player to
move. -/
def c3state : MNKGameState :=
  (((g33.new_initial_state.apply_action 0).bind fun s => s.apply_action 3).bind
    fun s => s.apply_action 1).toOption.getD g33.new_initial_state

/-- The state produced by feeding apply_action the out-of-range action -1
on the 3 by 3 initial state. -/
def c4after : MNKGameState :=
  (g33.new_initial_state.apply_action (-1)).toOption.getD g33.new_initial_state

/-- A 3 by 3 state with the board of c3state and player 0 recorded as the
player to move. -/
def c2stateX : MNKGameState :=
  { g33.new_initial_state with board := [0, 0, -1, 1, -1, -1, -1, -1, -1], currentPlayer := 0 }

/-- The same board as c2stateX with player 1 recorded as the player to
move. -/
def c2stateO : MNKGameState :=
  { c2stateX with currentPlayer := 1 }

/-- The dataset record of the 1 by 1 initial state. -/
def r11 : Record := mkInfo g11.new_initial_state 0

/-- The state reached after one legal move in the 1 by 1 game, used to
instantiate the per-transition measure facts. -/
def c10child : MNKGameState :=
  (g11.new_initial_state.apply_action 0).toOption.getD g11.new_initial_state

/-- A 3 by 0 board with win length 3: the constructor validation accepts it
because the larger axis reaches 3, yet its board has no cells at all. -/
def g30 : MNKGame := { m := 3, n := 0, baseK := 3, rules := {} }

theorem mem_legal_actions {s : MNKGameState} {a : Nat} :
    a ∈ s.legal_actions ↔ s.gameOver = false ∧ a < s.board.length ∧ s.board.getD a 0 = -1 := by
  unfold MNKGameState.legal_actions
  cases h : s.gameOver <;>
    simp [List.mem_filter, List.mem_range]

theorem countP_set_lt {l : List Int} {i : Nat} {v : Int} {p : Int → Bool}
    (hi : i < l.length) (hv : p (l.getD i 0) = true) (hnv : p v = false) :
    (l.set i v).countP p < l.countP p := by
  induction l generalizing i with
  | nil => simp at hi
  | cons x xs ih =>
    cases i with
    | zero =>
      simp only [List.getD_cons_zero] at hv
      simp [List.set, List.countP_cons, hv, hnv]
    | succ j =>
      simp only [List.getD_cons_succ] at hv
      have := ih (by simpa using hi) hv
      simp [List.set, List.countP_cons]
      omega

theorem resolveOutcome_board (s1 : MNKGameState) (mover : Nat) :
    (s1.resolveOutcome mover).board = s1.board := by
  unfold MNKGameState.resolveOutcome
  split
  · rfl
  · split <;> rfl

theorem resolveOutcome_moveCount (s1 : MNKGameState) (mover : Nat) :
    (s1.resolveOutcome mover).moveCount = s1.moveCount := by
  unfold MNKGameState.resolveOutcome
  split
  · rfl
  · split <;> rfl

theorem resolveOutcome_rows (s1 : MNKGameState) (mover : Nat) :
    (s1.resolveOutcome mover).rows = s1.rows := by
  unfold MNKGameState.resolveOutcome
  split
  · rfl
  · split <;> rfl

theorem resolveOutcome_cols (s1 : MNKGameState) (mover : Nat) :
    (s1.resolveOutcome mover).cols = s1.cols := by
  unfold MNKGameState.resolveOutcome
  split
  · rfl
  · split <;> rfl

theorem advanceTurn_board (s2 : MNKGameState) (mover : Nat) :
    (s2.advanceTurn mover).board = s2.board := by
  unfold MNKGameState.advanceTurn
  split <;> rfl

theorem advanceTurn_gameOver (s2 : MNKGameState) (mover : Nat) :
    (s2.advanceTurn mover).gameOver = s2.gameOver := by
  unfold MNKGameState.advanceTurn
  split <;> rfl

theorem advanceTurn_returns (s2 : MNKGameState) (mover : Nat) :
    (s2.advanceTurn mover).returns = s2.returns := by
  unfold MNKGameState.advanceTurn
  split <;> rfl

theorem advanceTurn_moveCount (s2 : MNKGameState) (mover : Nat) :
    (s2.advanceTurn mover).moveCount = s2.moveCount := by
  unfold MNKGameState.advanceTurn
  split <;> rfl

theorem advanceTurn_rows (s2 : MNKGameState) (mover : Nat) :
    (s2.advanceTurn mover).rows = s2.rows := by
  unfold MNKGameState.advanceTurn
  split <;> rfl

theorem advanceTurn_cols (s2 : MNKGameState) (mover : Nat) :
    (s2.advanceTurn mover).cols = s2.cols := by
  unfold MNKGameState.advanceTurn
  split <;> rfl

theorem applyStep_board (s : MNKGameState) (er ec : Nat) :
    (s.applyStep er ec).board = s.board.set (er * s.cols + ec) (s.currentPlayer : Int) := by
  unfold MNKGameState.applyStep
  rw [advanceTurn_board, resolveOutcome_board]

theorem applyStep_moveCount (s : MNKGameState) (er ec : Nat) :
    (s.applyStep er ec).moveCount = s.moveCount + 1 := by
  unfold MNKGameState.applyStep
  rw [advanceTurn_moveCount, resolveOutcome_moveCount]

theorem applyStep_rows (s : MNKGameState) (er ec : Nat) :
    (s.applyStep er ec).rows = s.rows := by
  unfold MNKGameState.applyStep
  rw [advanceTurn_rows, resolveOutcome_rows]

theorem applyStep_cols (s : MNKGameState) (er ec : Nat) :
    (s.applyStep er ec).cols = s.cols := by
  unfold MNKGameState.applyStep
  rw [advanceTurn_cols, resolveOutcome_cols]

theorem apply_action_index {s : MNKGameState} {a : Nat} {c : MNKGameState}
    (ha : a ∈ s.legal_actions) (h : s.apply_action a = .ok c) :
    s.cols ≠ 0 ∧ c = s.applyStep (a / s.cols) (a % s.cols) ∧ a / s.cols < s.rows := by
  rcases mem_legal_actions.mp ha with ⟨hgo, hlen, hval⟩
  unfold MNKGameState.apply_action at h
  rw [hgo] at h
  simp only [Bool.false_eq_true, if_false] at h
  by_cases hc : s.cols = 0
  · rw [if_pos hc] at h; exact absurd h (by simp)
  · rw [if_neg hc] at h
    have hcpos : 0 < (s.cols : Int) := by exact_mod_cast Nat.pos_of_ne_zero hc
    have hdiv : ((a : Int)).ediv (s.cols : Int) = ((a / s.cols : Nat) : Int) :=
      (Int.natCast_ediv a s.cols).symm
    have hmod : ((a : Int)).emod (s.cols : Int) = ((a % s.cols : Nat) : Int) :=
      (Int.natCast_mod a s.cols).symm
    split at h
    · exact absurd h (by simp)
    · rename_i hrange
      rw [not_or] at hrange
      refine ⟨hc, ?_, ?_⟩
      · have h1 : ¬ ((a : Int).ediv (s.cols : Int) < 0) := by
          rw [hdiv]
          exact Int.not_lt.mpr (Int.natCast_nonneg _)
        have h2 : ¬ ((a : Int).emod (s.cols : Int) < 0) := by
          rw [hmod]
          exact Int.not_lt.mpr (Int.natCast_nonneg _)
        rw [if_neg h1, if_neg h2] at h
        have hdt : ((a : Int).ediv (s.cols : Int)).toNat = a / s.cols := by
          rw [hdiv, Int.toNat_natCast]
        have hmt : ((a : Int).emod (s.cols : Int)).toNat = a % s.cols := by
          rw [hmod, Int.toNat_natCast]
        rw [hdt, hmt] at h
        exact (Except.ok.injEq _ _).mp h.symm
      · have h3 := Int.not_le.mp (by rw [hdiv] at hrange; exact hrange.2)
        exact_mod_cast h3

theorem apply_action_ok_spec {s : MNKGameState} {a : Nat} {c : MNKGameState}
    (ha : a ∈ s.legal_actions) (h : s.apply_action a = .ok c) :
    c.board = s.board.set a (s.currentPlayer : Int) ∧ c.moveCount = s.moveCount + 1 ∧
      c.rows = s.rows ∧ c.cols = s.cols ∧ emptyCount c < emptyCount s := by
  rcases mem_legal_actions.mp ha with ⟨hgo, hlen, hval⟩
  rcases apply_action_index ha h with ⟨hc, hcstep, hrow⟩
  have hdm := Nat.div_add_mod a s.cols
  have hidx : a / s.cols * s.cols + a % s.cols = a := by
    rw [Nat.mul_comm (a / s.cols) s.cols]
    exact hdm
  have hboard : c.board = s.board.set a (s.currentPlayer : Int) := by
    rw [hcstep, applyStep_board, hidx]
  refine ⟨hboard, ?_, ?_, ?_, ?_⟩
  · rw [hcstep, applyStep_moveCount]
  · rw [hcstep, applyStep_rows]
  · rw [hcstep, applyStep_cols]
  · unfold emptyCount
    rw [hboard]
    refine countP_set_lt hlen ?_ ?_
    · rw [hval]; rfl
    · simp only [beq_eq_false_iff_ne, ne_eq]
      omega

theorem apply_action_ok_of_legal {s : MNKGameState} {a : Nat}
    (hwf : WFState s) (ha : a ∈ s.legal_actions) :
    ∃ c, s.apply_action a = .ok c := by
  rcases mem_legal_actions.mp ha with ⟨hgo, hlen, hval⟩
  have hc : s.cols ≠ 0 := by
    intro h0
    unfold WFState at hwf
    rw [h0] at hwf
    omega
  have hcpos := Nat.pos_of_ne_zero hc
  have hrow : a / s.cols < s.rows := by
    rw [Nat.div_lt_iff_lt_mul hcpos]
    unfold WFState at hwf
    omega
  cases h : s.apply_action (a : Int) with
  | ok c => exact ⟨c, rfl⟩
  | error e =>
    exfalso
    unfold MNKGameState.apply_action at h
    rw [hgo] at h
    simp only [Bool.false_eq_true, if_false] at h
    rw [if_neg hc] at h
    have hcond : ¬ ((a : Int).ediv (s.cols : Int) < -(s.rows : Int) ∨
        (s.rows : Int) ≤ (a : Int).ediv (s.cols : Int)) := by
      rw [← Int.natCast_ediv]
      push_neg
      constructor
      · exact le_trans (neg_nonpos.mpr (Int.natCast_nonneg s.rows)) (Int.natCast_nonneg _)
      · exact_mod_cast hrow
    rw [if_neg hcond] at h
    exact absurd h (by simp)

theorem WFState_of_apply {s : MNKGameState} {a : Nat} {c : MNKGameState}
    (hwf : WFState s) (ha : a ∈ s.legal_actions) (h : s.apply_action a = .ok c) :
    WFState c := by
  rcases apply_action_ok_spec ha h with ⟨hb, _, hr, hcc, _⟩
  unfold WFState at *
  rw [hb, List.length_set, hr, hcc]
  exact hwf

theorem resolveOutcome_live (s1 : MNKGameState) (mover : Nat)
    (h : (s1.resolveOutcome mover).gameOver = false) :
    s1.resolveOutcome mover = s1 ∧ s1.board.all (fun v => v != -1) = false := by
  unfold MNKGameState.resolveOutcome at *
  split at h
  · exact absurd h (by simp)
  · split at h
    · exact absurd h (by simp)
    · rename_i hfull
      exact ⟨if_neg hfull, by simpa using hfull⟩

theorem applyStep_live_not_full (s : MNKGameState) (er ec : Nat)
    (h : (s.applyStep er ec).gameOver = false) :
    (s.applyStep er ec).board.all (fun v => v != -1) = false := by
  unfold MNKGameState.applyStep at *
  rw [advanceTurn_gameOver] at h
  rw [advanceTurn_board, resolveOutcome_board]
  exact (resolveOutcome_live _ _ h).2

theorem expandChildren_congr {step1 step2 : MNKGameState → GenAcc → Except GenError GenAcc}
    {s : MNKGameState} :
    ∀ (actions : List Nat) (acc : GenAcc),
      (∀ a ∈ actions, ∀ c, s.apply_action a = .ok c → ∀ acc1, step1 c acc1 = step2 c acc1) →
      expandChildren step1 s actions acc = expandChildren step2 s actions acc := by
  intro actions
  induction actions with
  | nil => intro acc h; rfl
  | cons a rest ih =>
    intro acc h
    simp only [expandChildren]
    cases hap : s.apply_action (a : Int) with
    | error e => rfl
    | ok child =>
      dsimp only
      rw [← h a (by simp) child hap acc]
      cases step1 child acc with
      | error e => rfl
      | ok acc1 =>
        dsimp only
        exact ih acc1 (fun b hb c hc acc2 => h b (by simp [hb]) c hc acc2)

theorem generate_fuel_succ :
    ∀ (fuel : Nat) (s : MNKGameState) (acc : GenAcc) (numTurns : Nat) (maxDepth : Option Nat),
      emptyCount s < fuel →
      generate_all_states fuel s acc numTurns maxDepth =
        generate_all_states (fuel + 1) s acc numTurns maxDepth := by
  intro fuel
  induction fuel with
  | zero => intro s acc n d h; exact absurd h (Nat.not_lt_zero _)
  | succ m ih =>
    intro s acc n d h
    show generate_all_states (m + 1) s acc n d = generate_all_states (m + 1 + 1) s acc n d
    simp only [generate_all_states]
    split
    · rfl
    · split
      · rfl
      · apply expandChildren_congr
        intro a ha c hc acc1
        rcases apply_action_ok_spec ha hc with ⟨_, _, _, _, hlt⟩
        exact ih c acc1 (n + 1) d (by omega)

theorem generate_fuel_ge (s : MNKGameState) (acc : GenAcc) (n : Nat) (d : Option Nat) :
    ∀ fuel, emptyCount s + 1 ≤ fuel →
      generate_all_states fuel s acc n d =
        generate_all_states (emptyCount s + 1) s acc n d := by
  intro fuel
  induction fuel with
  | zero => intro h; omega
  | succ m ih =>
    intro h
    rcases Nat.lt_or_ge (emptyCount s + 1) (m + 1) with hlt | hge
    · rw [← generate_fuel_succ m s acc n d (by omega)]
      exact ih (by omega)
    · have hmeq : emptyCount s + 1 = m + 1 := by omega
      rw [hmeq]

theorem expandChildren_total {step : MNKGameState → GenAcc → Except GenError GenAcc}
    {s : MNKGameState} :
    ∀ (actions : List Nat) (acc : GenAcc),
      (∀ a ∈ actions, ∃ c, s.apply_action a = .ok c ∧ ∀ acc1, ∃ r, step c acc1 = .ok r) →
      ∃ r, expandChildren step s actions acc = .ok r := by
  intro actions
  induction actions with
  | nil => intro acc h; exact ⟨acc, rfl⟩
  | cons a rest ih =>
    intro acc h
    simp only [expandChildren]
    rcases h a (by simp) with ⟨c, hc, hstep⟩
    rw [hc]
    dsimp only
    rcases hstep acc with ⟨r1, hr1⟩
    rw [hr1]
    dsimp only
    exact ih r1 (fun b hb => h b (by simp [hb]))

theorem generate_total :
    ∀ (fuel : Nat) (s : MNKGameState) (acc : GenAcc) (numTurns : Nat) (maxDepth : Option Nat),
      WFState s → emptyCount s < fuel →
      ∃ r, generate_all_states fuel s acc numTurns maxDepth = .ok r := by
  intro fuel
  induction fuel with
  | zero => intro s acc n d _ h; exact absurd h (Nat.not_lt_zero _)
  | succ m ih =>
    intro s acc n d hwf h
    simp only [generate_all_states]
    split
    · exact ⟨acc, rfl⟩
    · split
      · exact ⟨_, rfl⟩
      · apply expandChildren_total
        intro a ha
        rcases apply_action_ok_of_legal hwf ha with ⟨c, hc⟩
        rcases apply_action_ok_spec ha hc with ⟨_, _, _, _, hlt⟩
        exact ⟨c, hc, fun acc1 => ih c acc1 (n + 1) d (WFState_of_apply hwf ha hc) (by omega)⟩

theorem expandChildren_inv {P : GenAcc → Prop}
    {step : MNKGameState → GenAcc → Except GenError GenAcc} {s : MNKGameState} :
    ∀ (actions : List Nat) (acc res : GenAcc),
      (∀ c acc1 r1, P acc1 → step c acc1 = .ok r1 → P r1) →
      P acc → expandChildren step s actions acc = .ok res → P res := by
  intro actions
  induction actions with
  | nil =>
    intro acc res _ hP h
    simp only [expandChildren] at h
    injection h with h2
    rw [← h2]
    exact hP
  | cons a rest ih =>
    intro acc res hstep hP h
    simp only [expandChildren] at h
    cases hap : s.apply_action (a : Int) with
    | error e => rw [hap] at h; exact absurd h (by simp)
    | ok child =>
      rw [hap] at h
      dsimp only at h
      cases hs : step child acc with
      | error e => rw [hs] at h; exact absurd h (by simp)
      | ok acc1 =>
        rw [hs] at h
        dsimp only at h
        exact ih acc1 res hstep (hstep child acc acc1 hP hs) h

theorem generate_inv :
    ∀ (fuel : Nat) (s : MNKGameState) (acc : GenAcc) (n : Nat) (d : Option Nat) (res : GenAcc),
      generate_all_states fuel s acc n d = .ok res → GenInv acc → GenInv res := by
  intro fuel
  induction fuel with
  | zero =>
    intro s acc n d res h _
    exact absurd h (by simp [generate_all_states])
  | succ m ih =>
    intro s acc n d res h hP
    simp only [generate_all_states] at h
    split at h
    · injection h with h2; rw [← h2]; exact hP
    · split at h
      · injection h with h2; rw [← h2]; exact hP
      · rename_i hguard hdepth
        rw [not_or] at hguard
        refine expandChildren_inv s.legal_actions _ res
          (fun c acc1 r1 hp hs => ih c acc1 (n + 1) d r1 hs hp) ?_ h
        rcases hP with ⟨hlive, hnodup, hkeys⟩
        refine ⟨?_, ?_, ?_⟩
        · intro r hr
          rcases List.mem_append.mp hr with hold | hnew
          · exact hlive r hold
          · have : r = mkInfo s n := by simpa using hnew
            rw [this]
            show s.gameOver = false
            simpa using hguard.2
        · rw [List.map_append]
          rw [List.nodup_append]
          refine ⟨hnodup, List.nodup_singleton _, ?_⟩
          intro x hx hx1
          have hxs : x = s.to_string := by simpa using hx1
          rcases List.mem_map.mp hx with ⟨r, hr, hrx⟩
          apply hguard.1
          rw [← hxs, ← hrx]
          exact hkeys r hr
        · intro r hr
          rcases List.mem_append.mp hr with hold | hnew
          · exact List.mem_append_left _ (hkeys r hold)
          · have : r = mkInfo s n := by simpa using hnew
            rw [this]
            apply List.mem_append_right
            show s.to_string ∈ [s.to_string]
            simp

theorem findWin_iff (s : MNKGameState) (p : Nat) :
    s.findWin p = true ↔ HasQualifyingLine s.game s.rows s.cols s.board p := by
  unfold MNKGameState.findWin HasQualifyingLine check_line
  simp only [List.any_eq_true, List.all_eq_true, List.mem_range, Bool.and_eq_true,
    beq_iff_eq, decide_eq_true_eq]
  constructor
  · rintro ⟨r, hr, c, hc, hcell, d, hd, hline⟩
    refine ⟨r, hr, c, hc, hcell, d, hd, fun i hi => ?_⟩
    rcases hline i hi with ⟨⟨⟨⟨h1, h2⟩, h3⟩, h4⟩, h5⟩
    exact ⟨h1, h2, h3, h4, h5⟩
  · rintro ⟨r, hr, c, hc, hcell, d, hd, hline⟩
    refine ⟨r, hr, c, hc, hcell, d, hd, fun i hi => ?_⟩
    rcases hline i hi with ⟨h1, h2, h3, h4, h5⟩
    exact ⟨⟨⟨⟨h1, h2⟩, h3⟩, h4⟩, h5⟩

theorem resolveOutcome_of_win (s1 : MNKGameState) (mover : Nat)
    (h : s1.findWin mover = true) :
    (s1.resolveOutcome mover).gameOver = true ∧
      (s1.resolveOutcome mover).returns =
        (if s1.rules.misere then setReturns mover (-1) 1 else setReturns mover 1 (-1)) := by
  unfold MNKGameState.resolveOutcome MNKGameState.check_outcome
  rw [h]
  simp only [if_true]
  cases hm : s1.rules.misere <;> simp

theorem resolveOutcome_of_draw (s1 : MNKGameState) (mover : Nat)
    (h : s1.findWin mover = false) (hfull : s1.board.all (fun v => v != -1) = true) :
    (s1.resolveOutcome mover).gameOver = true ∧ (s1.resolveOutcome mover).returns = (0, 0) := by
  unfold MNKGameState.resolveOutcome MNKGameState.check_outcome
  rw [h]
  simp only [Bool.false_eq_true, if_false]
  rw [hfull]
  simp

theorem advanceTurn_of_over (s2 : MNKGameState) (mover : Nat) (h : s2.gameOver = true) :
    s2.advanceTurn mover = s2 := by
  unfold MNKGameState.advanceTurn
  rw [if_neg]
  rintro ⟨h1, _⟩
  rw [h] at h1
  exact absurd h1 (by simp)

theorem applyStep_win (s : MNKGameState) (er ec : Nat)
    (h : HasQualifyingLine s.game s.rows s.cols
      (s.board.set (er * s.cols + ec) (s.currentPlayer : Int)) s.currentPlayer) :
    (s.applyStep er ec).gameOver = true ∧
      (s.applyStep er ec).returns =
        (if s.rules.misere then setReturns s.currentPlayer (-1) 1
         else setReturns s.currentPlayer 1 (-1)) := by
  unfold MNKGameState.applyStep
  dsimp only
  have hwin : ({ s with
                 board := s.board.set (er * s.cols + ec) (s.currentPlayer : Int),
                 moveCount := s.moveCount + 1,
                 movesRemainingInTurn := s.movesRemainingInTurn - 1 } :
      MNKGameState).findWin s.currentPlayer = true :=
    (findWin_iff _ _).mpr h
  have h1 := resolveOutcome_of_win _ _ hwin
  rw [advanceTurn_of_over _ _ h1.1]
  exact ⟨h1.1, h1.2⟩

theorem applyStep_draw (s : MNKGameState) (er ec : Nat)
    (hnot : ¬ HasQualifyingLine s.game s.rows s.cols
      (s.board.set (er * s.cols + ec) (s.currentPlayer : Int)) s.currentPlayer)
    (hfull : (s.board.set (er * s.cols + ec) (s.currentPlayer : Int)).all
      (fun v => v != -1) = true) :
    (s.applyStep er ec).gameOver = true ∧ (s.applyStep er ec).returns = (0, 0) := by
  unfold MNKGameState.applyStep
  dsimp only
  have hwinf : ({ s with
                  board := s.board.set (er * s.cols + ec) (s.currentPlayer : Int),
                  moveCount := s.moveCount + 1,
                  movesRemainingInTurn := s.movesRemainingInTurn - 1 } :
      MNKGameState).findWin s.currentPlayer = false := by
    rw [← Bool.not_eq_true]
    intro hw
    exact hnot ((findWin_iff _ _).mp hw)
  have h1 := resolveOutcome_of_draw _ s.currentPlayer hwinf hfull
  rw [advanceTurn_of_over _ _ h1.1]
  exact ⟨h1.1, h1.2⟩

theorem apply_ok_applyStep {s c : MNKGameState} {action : Int}
    (h : s.apply_action action = .ok c) :
    ∃ er ec, c = s.applyStep er ec := by
  unfold MNKGameState.apply_action at h
  split at h
  · exact absurd h (by simp)
  · split at h
    · exact absurd h (by simp)
    · dsimp only at h
      split at h
      · exact absurd h (by simp)
      · injection h with h2
        exact ⟨_, _, h2.symm⟩

theorem apply_ok_live_has_empty {s c : MNKGameState} {action : Int}
    (h : s.apply_action action = .ok c) (hlive : c.gameOver = false) :
    ∃ i, i < c.board.length ∧ c.board.getD i 0 = -1 := by
  rcases apply_ok_applyStep h with ⟨er, ec, hc⟩
  subst hc
  have hfull := applyStep_live_not_full s er ec hlive
  rcases List.all_eq_false.mp hfull with ⟨x, hx, hnx⟩
  have hxv : x = -1 := by simpa using hnx
  rcases List.mem_iff_getElem.mp hx with ⟨i, hilen, hival⟩
  refine ⟨i, hilen, ?_⟩
  rw [List.getD_eq_getElem?_getD, List.getElem?_eq_getElem hilen]
  rw [hival, hxv]
  rfl

/-- Claim C2 counterexample: two states with identical board contents but a
different player to move have the same canonical key, so the key does not
encode the player to move. -/
theorem c2_counterexample :
    c2stateX.currentPlayer ≠ c2stateO.currentPlayer ∧ c2stateX.board = c2stateO.board ∧
      c2stateX.to_string = c2stateO.to_string := by decide

/-- Claim C2 (amended): the canonical deduplication key renders only the
board contents (through the state's dimensions); any two states with equal
rows, cols and board share one key regardless of current player, move
count or ply, so board-identical states collapse to one record even when
their player to move differs. -/
theorem c2_key_board_only (s1 s2 : MNKGameState) (hrows : s1.rows = s2.rows)
    (hcols : s1.cols = s2.cols) (hb : s1.board = s2.board) :
    s1.to_string = s2.to_string := by
  unfold MNKGameState.to_string
  rw [hrows, hcols, hb]

/-- Witness for c2_key_board_only at the two concrete states of the
counterexample. -/
theorem c2_key_board_only_witness :
    c2stateX.rows = c2stateO.rows ∧ c2stateX.cols = c2stateO.cols ∧
      c2stateX.board = c2stateO.board ∧ c2stateX.to_string = c2stateO.to_string :=
  ⟨rfl, rfl, rfl, c2_key_board_only c2stateX c2stateO rfl rfl rfl⟩

/-- Claim C3 (code-bug evaluation): at the reachable position c3state with
player 1 (O) to move, the recorded chainLengthSelf value longest_chain s 1
is 2, the chain of player 0's stones, while the longest run of cells owned
by the player to move is 1; extract_board reads absolute planes because
observation_tensor ignores its player id. -/
theorem c3_longest_chain_bug :
    (((g33.new_initial_state.apply_action 0).bind fun s => s.apply_action 3).bind
      fun s => s.apply_action 1) = .ok c3state ∧
    c3state.gameOver = false ∧ c3state.currentPlayer = 1 ∧
      longest_chain c3state 1 = 2 ∧ specLongestChain c3state 1 = 1 ∧
      specLongestChain c3state 0 = 2 := by decide

/-- Claim C4 (code-bug evaluation): the action -1 is outside the range of
board cells of the 3 by 3 game, yet apply_action on the initial state
raises nothing and mutates the state, placing the mover's mark in the
last cell through numpy negative-index wraparound. -/
theorem c4_negative_index_bug :
    g33.new_initial_state.apply_action (-1) = .ok c4after ∧
      c4after.board ≠ g33.new_initial_state.board ∧
      c4after.board = [-1, -1, -1, -1, -1, -1, -1, -1, 0] ∧
      c4after.moveCount = 1 := by decide

/-- Claim C9 counterexample: a record lacking the field foo matches
filter(foo=None), because dict.get yields None for the missing key and
None equals the given value; the claim says such a record never matches. -/
theorem c9_counterexample :
    (GameStateView.mk [r11]).filterKw [("foo", PyVal.none)] = GameStateView.mk [r11] ∧
      Record.get r11 "foo" = PyVal.none := by decide

/-- Claim C9 (amended): filter keeps exactly the records in which every
named field, read through dict.get with missing fields surfacing as None,
equals the given value; a record lacking a named field matches precisely
when the given value is None, and filter is a total function (never
raises). -/
theorem filterKw_mem_iff (v : GameStateView Record) (kwargs : List (String × PyVal))
    (x : Record) :
    x ∈ (v.filterKw kwargs).items ↔
      x ∈ v.items ∧ ∀ kv ∈ kwargs, x.get kv.1 = kv.2 := by
  unfold GameStateView.filterKw
  simp [List.mem_filter, List.all_eq_true]

/-- Claim C5: on a non-terminal state a legal action always applies; if the
board after the placement holds a qualifying line for the mover (the
win check of section 4.1), the result is terminal with the mover's return
1 and the opponent's -1, inverted under misere; if it holds no such line
and no empty cell remains, the result is a terminal draw with returns
[0, 0]. -/
theorem apply_action_outcome (s : MNKGameState) (a : Nat)
    (hcp : s.currentPlayer ≤ 1) (ha : a ∈ s.legal_actions) (hwf : WFState s) :
    ∃ c, s.apply_action a = .ok c ∧
      (HasQualifyingLine s.game s.rows s.cols c.board s.currentPlayer →
        c.gameOver = true ∧
          c.returns = (if s.rules.misere then setReturns s.currentPlayer (-1) 1
                       else setReturns s.currentPlayer 1 (-1))) ∧
      (¬ HasQualifyingLine s.game s.rows s.cols c.board s.currentPlayer →
        c.board.all (fun v => v != -1) = true →
        c.gameOver = true ∧ c.returns = (0, 0)) := by
  rcases apply_action_ok_of_legal hwf ha with ⟨c, hc⟩
  rcases apply_action_index ha hc with ⟨hcols, hstep, hrow⟩
  subst hstep
  refine ⟨_, hc, ?_, ?_⟩
  · intro hline
    rw [applyStep_board] at hline
    exact applyStep_win s _ _ hline
  · intro hnot hfull
    rw [applyStep_board] at hnot hfull
    exact applyStep_draw s _ _ hnot hfull

/-- Witness for apply_action_outcome at the 1 by 1 game's initial state and
its single legal action. -/
theorem apply_action_outcome_witness :
    g11.new_initial_state.currentPlayer ≤ 1 ∧ 0 ∈ g11.new_initial_state.legal_actions ∧
      WFState g11.new_initial_state ∧
      (∃ c, g11.new_initial_state.apply_action 0 = .ok c ∧
        (HasQualifyingLine g11.new_initial_state.game g11.new_initial_state.rows
            g11.new_initial_state.cols c.board g11.new_initial_state.currentPlayer →
          c.gameOver = true ∧
            c.returns = (if g11.new_initial_state.rules.misere
                         then setReturns g11.new_initial_state.currentPlayer (-1) 1
                         else setReturns g11.new_initial_state.currentPlayer 1 (-1))) ∧
        (¬ HasQualifyingLine g11.new_initial_state.game g11.new_initial_state.rows
            g11.new_initial_state.cols c.board g11.new_initial_state.currentPlayer →
          c.board.all (fun v => v != -1) = true →
          c.gameOver = true ∧ c.returns = (0, 0))) :=
  ⟨by decide, by decide, by rfl,
    apply_action_outcome g11.new_initial_state 0 (by decide) (by decide) (by rfl)⟩

/-- Claim C6 counterexample: the 3 by 0 game passes constructor validation,
and its initial state is reachable, non-terminal and has no legal
actions, so legalActions being empty does not imply terminal. -/
theorem c6_counterexample :
    mkMNKGame 3 0 3 {} = .ok g30 ∧ g30.new_initial_state.gameOver = false ∧
      g30.new_initial_state.legal_actions = [] := by decide

/-- Claim C6 (amended): for a game whose board has at least one cell, every
state reachable from the initial state by legal transitions has an empty
legal-action list exactly when it is terminal; in particular a reachable
non-terminal state always has an empty cell. -/
theorem legal_actions_empty_iff_terminal (g : MNKGame) (s : MNKGameState)
    (hr : ReachableFrom g s) (hcells : 0 < g.m * g.n) :
    s.legal_actions = [] ↔ s.gameOver = true := by
  constructor
  · intro hempty
    by_contra hgo
    have hlive : s.gameOver = false := by simpa using hgo
    have hex : ∃ i, i < s.board.length ∧ s.board.getD i 0 = -1 := by
      cases hr with
      | init =>
        refine ⟨0, ?_, ?_⟩
        · show 0 < (List.replicate (g.m * g.n) (-1 : Int)).length
          simpa using hcells
        · show (List.replicate (g.m * g.n) (-1 : Int)).getD 0 0 = -1
          rcases Nat.exists_eq_succ_of_ne_zero (Nat.pos_iff_ne_zero.mp hcells) with ⟨t, ht⟩
          rw [ht]
          rfl
      | step hr2 ha2 hap2 => exact apply_ok_live_has_empty hap2 hlive
    rcases hex with ⟨i, hi, hv⟩
    have hmem : i ∈ s.legal_actions := mem_legal_actions.mpr ⟨hlive, hi, hv⟩
    rw [hempty] at hmem
    exact absurd hmem (List.not_mem_nil i)
  · intro hgo
    unfold MNKGameState.legal_actions
    rw [hgo]
    rfl

/-- Witness for legal_actions_empty_iff_terminal at the 1 by 1 game's
initial state. -/
theorem legal_actions_empty_iff_terminal_witness :
    0 < g11.m * g11.n ∧
      (g11.new_initial_state.legal_actions = [] ↔ g11.new_initial_state.gameOver = true) :=
  ⟨by decide, legal_actions_empty_iff_terminal g11 g11.new_initial_state
    ReachableFrom.init (by decide)⟩

theorem emptyCount_initial (g : MNKGame) : emptyCount g.new_initial_state = g.m * g.n := by
  unfold emptyCount MNKGame.new_initial_state
  dsimp only
  rw [List.countP_replicate]
  simp

/-- Claim C10: enumeration from any game's initial state terminates without
a depth limit: a recursion budget of rows * cols + 1 plies completes
(returns ok) and any larger budget computes the same result, because every
legal apply_action increments the move count and strictly decreases the
number of empty cells, bounding path length by the board size. -/
theorem generation_terminates (g : MNKGame) :
    (∃ r, generate_all_states (g.m * g.n + 1) g.new_initial_state ([], []) 0 none = .ok r) ∧
    (∀ fuel, g.m * g.n + 1 ≤ fuel →
      generate_all_states fuel g.new_initial_state ([], []) 0 none =
        generate_all_states (g.m * g.n + 1) g.new_initial_state ([], []) 0 none) ∧
    (∀ (s : MNKGameState) (a : Nat) (c : MNKGameState), a ∈ s.legal_actions →
      s.apply_action a = .ok c →
      c.moveCount = s.moveCount + 1 ∧ emptyCount c < emptyCount s) := by
  have hwfi : WFState g.new_initial_state := by
    unfold WFState MNKGame.new_initial_state
    simp
  have hemp := emptyCount_initial g
  refine ⟨?_, ?_, ?_⟩
  · exact generate_total (g.m * g.n + 1) g.new_initial_state ([], []) 0 none hwfi (by omega)
  · intro fuel hf
    rw [generate_fuel_ge g.new_initial_state ([], []) 0 none fuel (by omega), hemp]
  · intro s a c ha hc
    rcases apply_action_ok_spec ha hc with ⟨_, hmc, _, _, hlt⟩
    exact ⟨hmc, hlt⟩

/-- Witness for generation_terminates at the 1 by 1 game, with the
per-transition facts instantiated at its single legal move. -/
theorem generation_terminates_witness :
    (∃ r, generate_all_states (g11.m * g11.n + 1) g11.new_initial_state ([], []) 0 none =
      .ok r) ∧
    (c10child.moveCount = g11.new_initial_state.moveCount + 1 ∧
      emptyCount c10child < emptyCount g11.new_initial_state) :=
  ⟨(generation_terminates g11).1,
    (generation_terminates g11).2.2 g11.new_initial_state 0 c10child (by decide) (by decide)⟩

/-- Claim C1 counterexample: in the 1 by 1 game the terminal state reached
by the single legal move is reachable, yet the enumeration's dataset holds
exactly one record, the non-terminal root; the reachable terminal state
receives no record because the recursion returns at it before recording. -/
theorem c1_counterexample :
    g11.new_initial_state.apply_action 0 = .ok c1terminal ∧ c1terminal.gameOver = true ∧
      generate_all_states 2 g11.new_initial_state ([], []) 0 none =
        .ok ([g11.new_initial_state.to_string], [mkInfo g11.new_initial_state 0]) ∧
      generate_all_states 3 g11.new_initial_state ([], []) 0 none =
        .ok ([g11.new_initial_state.to_string], [mkInfo g11.new_initial_state 0]) ∧
      (mkInfo g11.new_initial_state 0).state ≠ c1terminal ∧
      (mkInfo g11.new_initial_state 0).state.gameOver = false := by decide

/-- Claim C1 (amended): every record a run appends snapshots a non-terminal
state (recursion stops at a terminal state before recording it, so
terminal states are excluded from recording as well as expansion), and
the records' canonical keys are pairwise distinct, so each recorded state
is recorded exactly once. -/
theorem generate_records_nonterminal (fuel : Nat) (s : MNKGameState) (numTurns : Nat)
    (maxDepth : Option Nat) (visited : List String) (ds : List Record)
    (h : generate_all_states fuel s ([], []) numTurns maxDepth = .ok (visited, ds)) :
    (∀ r ∈ ds, r.state.gameOver = false) ∧
      (ds.map fun r => r.state.to_string).Nodup := by
  have h2 := generate_inv fuel s ([], []) numTurns maxDepth (visited, ds) h
    ⟨by simp, by simp, by simp⟩
  exact ⟨h2.1, h2.2.1⟩

/-- Witness for generate_records_nonterminal on the concrete 1 by 1 run. -/
theorem generate_records_nonterminal_witness :
    (∀ r ∈ [mkInfo g11.new_initial_state 0], r.state.gameOver = false) ∧
      (([mkInfo g11.new_initial_state 0]).map fun r => r.state.to_string).Nodup :=
  generate_records_nonterminal 2 g11.new_initial_state 0 none
    [g11.new_initial_state.to_string] [mkInfo g11.new_initial_state 0] (by decide)

theorem cons_getElem_eraseIdx_perm {α : Type} (l : List α) (i : Nat) (h : i < l.length) :
    (l[i] :: l.eraseIdx i).Perm l := by
  induction l generalizing i with
  | nil => simp at h
  | cons x xs ih =>
    cases i with
    | zero => simp [List.eraseIdx]
    | succ j =>
      have hj : j < xs.length := by simpa using h
      show (xs[j] :: x :: xs.eraseIdx j).Perm (x :: xs)
      exact (List.Perm.swap x (xs[j]) (xs.eraseIdx j)).trans ((ih j hj).cons x)

theorem drawWithout_perm {α : Type} (σ : Nat → Nat) :
    ∀ (n : Nat) (l : List α), l.length = n → (drawWithout σ n l).Perm l := by
  intro n
  induction n with
  | zero =>
    intro l h
    rw [List.length_eq_zero] at h
    rw [h]
    simp [drawWithout]
  | succ m ih =>
    intro l h
    match l with
    | [] => simp at h
    | x :: xs =>
      have hilt : σ m % (x :: xs).length < (x :: xs).length := Nat.mod_lt _ (by simp)
      have hgd : (x :: xs).getD (σ m % (x :: xs).length) x = (x :: xs)[σ m % (x :: xs).length] := by
        rw [List.getD_eq_getElem?_getD, List.getElem?_eq_getElem hilt]
        rfl
      have hlen : ((x :: xs).eraseIdx (σ m % (x :: xs).length)).length = m := by
        rw [List.length_eraseIdx_of_lt hilt]
        simpa using h
      show ((x :: xs).getD (σ m % (x :: xs).length) x ::
        drawWithout σ m ((x :: xs).eraseIdx (σ m % (x :: xs).length))).Perm (x :: xs)
      rw [hgd]
      exact ((ih _ hlen).cons _).trans
        (cons_getElem_eraseIdx_perm (x :: xs) (σ m % (x :: xs).length) hilt)

/-- Claim C7: sampling without replacement never raises for any draw
oracle: on an empty view it returns the empty sequence, and when k exceeds
the view's size it returns exactly the view's records (as a permutation,
random.sample shuffling their order); both paths only warn. -/
theorem sample_without_replacement_safe {α : Type} (v : GameStateView α) (σ : Nat → Nat)
    (k : Nat) (hk : 1 ≤ k) :
    ∃ r, v.sample σ k false = .ok r ∧ (v.items = [] → r = []) ∧
      (v.items.length < k → r.Perm v.items) := by
  unfold GameStateView.sample
  by_cases hempty : v.items.isEmpty = true
  · rw [if_pos hempty]
    rw [List.isEmpty_iff] at hempty
    exact ⟨[], rfl, fun _ => rfl, fun _ => by rw [hempty]⟩
  · rw [if_neg hempty]
    have hne : v.items ≠ [] := by
      intro h0
      exact hempty (by rw [h0]; rfl)
    by_cases hk2 : v.items.length < k
    · rw [if_pos ⟨rfl, hk2⟩]
      unfold randomSample
      rw [if_neg (by omega : ¬ (v.items.length < v.items.length))]
      exact ⟨_, rfl, fun he => absurd he hne, fun _ => drawWithout_perm σ _ _ rfl⟩
    · rw [if_neg (by rintro ⟨_, h2⟩; exact hk2 h2)]
      have hsample : randomSample σ v.items k = .ok (drawWithout σ k v.items) := by
        unfold randomSample
        rw [if_neg hk2]
      simp only [Bool.false_eq_true, if_false]
      rw [hsample]
      exact ⟨_, rfl, fun he => absurd he hne, fun hlt => absurd hlt hk2⟩

/-- Witness for sample_without_replacement_safe: a request of 3 draws from
a 2-record view. -/
theorem sample_without_replacement_safe_witness :
    1 ≤ 3 ∧ ∃ r, (GameStateView.mk [r11, mkInfo c2stateX 5]).sample (fun j => j) 3 false =
      .ok r ∧ ((GameStateView.mk [r11, mkInfo c2stateX 5]).items = [] → r = []) ∧
      ((GameStateView.mk [r11, mkInfo c2stateX 5]).items.length < 3 →
        r.Perm (GameStateView.mk [r11, mkInfo c2stateX 5]).items) :=
  ⟨by decide, sample_without_replacement_safe (GameStateView.mk [r11, mkInfo c2stateX 5])
    (fun j => j) 3 (by decide)⟩

/-- Claim C8 counterexample: a predicate that raises makes View.where
return the fault itself; the narrowing does not degrade to the unchanged
view, because the comprehension in where has no exception handling. -/
theorem c8_counterexample :
    (GameStateView.mk [r11]).whereP
        (fun _ => (.error "ZeroDivisionError" : Except String Bool)) =
      .error "ZeroDivisionError" ∧
    (GameStateView.mk [r11]).whereP
        (fun _ => (.error "ZeroDivisionError" : Except String Bool)) ≠
      .ok (GameStateView.mk [r11]) := by
  exact ⟨rfl, by decide⟩

theorem whereP_go_errors {α ε : Type} (fn : α → Except ε Bool) :
    ∀ (l : List α), (∃ x ∈ l, ∃ e, fn x = .error e) →
      ∃ e, GameStateView.whereP.go fn l = .error e := by
  intro l
  induction l with
  | nil => rintro ⟨x, hx, _⟩; exact absurd hx (List.not_mem_nil x)
  | cons a rest ih =>
    rintro ⟨x, hx, e, he⟩
    simp only [GameStateView.whereP.go]
    cases hfa : fn a with
    | error e2 => exact ⟨e2, rfl⟩
    | ok b =>
      rcases List.mem_cons.mp hx with hxa | hxr
      · rw [hxa] at he
        rw [he] at hfa
        exact absurd hfa (by simp)
      · rcases ih ⟨x, hxr, e, he⟩ with ⟨e2, he2⟩
        rw [he2]
        exact ⟨e2, rfl⟩

theorem whereP_go_ok {α ε : Type} (fn : α → Except ε Bool) (p : α → Bool) :
    ∀ l : List α, (∀ x ∈ l, fn x = .ok (p x)) →
      GameStateView.whereP.go fn l = .ok (l.filter p) := by
  intro l
  induction l with
  | nil => intro _; rfl
  | cons a rest ih =>
    intro hp
    simp only [GameStateView.whereP.go]
    rw [hp a (by simp)]
    rw [ih (fun x hx => hp x (by simp [hx]))]
    simp [List.filter_cons]

/-- Claim C8 (amended): a predicate fault during View.where propagates to
the caller, it is not caught and the view is not returned unchanged: if
the predicate faults on any item the narrowing evaluates to a fault; when
the predicate never faults, where returns exactly the records satisfying
it. -/
theorem whereP_fault_propagates {α ε : Type} (v : GameStateView α)
    (fn : α → Except ε Bool) :
    ((∃ x ∈ v.items, ∃ e, fn x = .error e) → ∃ e, v.whereP fn = .error e) ∧
    (∀ p : α → Bool, (∀ x ∈ v.items, fn x = .ok (p x)) →
      v.whereP fn = .ok ⟨v.items.filter p⟩) := by
  constructor
  · intro hx
    rcases whereP_go_errors fn v.items hx with ⟨e2, he2⟩
    refine ⟨e2, ?_⟩
    unfold GameStateView.whereP
    rw [he2]
    rfl
  · intro p hp
    unfold GameStateView.whereP
    rw [whereP_go_ok fn p v.items hp]
    rfl

/-- Witness for whereP_fault_propagates: a singleton view with a raising
predicate (fault surfaces) and with a total predicate (normal filtering). -/
theorem whereP_fault_propagates_witness :
    (∃ e, (GameStateView.mk [r11]).whereP
      (fun _ => (.error "ZeroDivisionError" : Except String Bool)) = .error e) ∧
    (GameStateView.mk [r11]).whereP (fun r => (.ok r.winning : Except String Bool)) =
      .ok ⟨[r11].filter (fun r => r.winning)⟩ :=
  ⟨(whereP_fault_propagates (GameStateView.mk [r11])
      (fun _ => (.error "ZeroDivisionError" : Except String Bool))).1
      ⟨r11, by simp, "ZeroDivisionError", rfl⟩,
   (whereP_fault_propagates (GameStateView.mk [r11])
      (fun r => (.ok r.winning : Except String Bool))).2
      (fun r => r.winning) (fun x _ => rfl)⟩

/-- Witness for filterKw_mem_iff at a concrete singleton view and a
one-field keyword map. -/
theorem filterKw_mem_iff_witness :
    r11 ∈ ((GameStateView.mk [r11]).filterKw [("winning", PyVal.vBool false)]).items ↔
      r11 ∈ (GameStateView.mk [r11]).items ∧
        ∀ kv ∈ [("winning", PyVal.vBool false)], r11.get kv.1 = kv.2 :=
  filterKw_mem_iff (GameStateView.mk [r11]) [("winning", PyVal.vBool false)] r11
